import Mathlib

/-!
Shallow embedding of the variant-to-GARC encoder of `src/parse.py`
(functions `rev_comp_snp`, `snps`, `del_calls`, `snp_number`, `ins_calls`),
together with a small store-passing model used to verify the frame
property of the working-copy discipline.

Conventions of the embedding:
* nucleotide symbols are `Char`s, gap markers (`None` in the source) are
  `Option.none`, so allele windows are `List (Option Char)` where the
  source passes lists that may contain `None`, and `List Char` where the
  source passes plain strings;
* genome positions are `Int` (the source mixes 1-based genome coordinates
  with 0-based array indexing; `ref_seq[pos + index - 1]` becomes
  `List.set` at `(pos + index - 1).toNat`);
* the gumpy collaborator (gene records, codon rebuilding, codon-to-amino
  -acid translation, complementation) is modelled at its interface
  boundary: a `Genome` carries the nucleotide sequence, the per-gene
  records, a codon-rebuilding function and a translation function;
* mutation strings `gene + "@" + ...` become structured `Token`s carrying
  exactly the pieces the source concatenates;
* the search loops of `del_calls` / `ins_calls` (inlined in the source)
  are named `candidate` / `indel_search`; a search that never updates
  (impossible for windows of length at most 999, the source initialises
  the running minimum to 999) makes the calls return `none`, mirroring
  the crash the source would have on `len(current)` with `current = None`.
-/

/-- Record for `reference.genes[gene]` with the fields the encoder reads. -/
structure GeneRecord where
  start : Int
  end_ : Int
  codes_protein : Bool
  reverse_complement : Bool
deriving DecidableEq

/-- Model of the `gumpy.Genome` reference object at the interface the
encoder uses: the nucleotide sequence, the per-gene records, the
codon-sequence rebuild (`build_gene(...).codons` restricted by the gene
masks, a function of the underlying nucleotide sequence) and the
`codon_to_amino_acid` table. -/
structure Genome where
  nucleotide_sequence : List Char
  genes : String → GeneRecord
  codonsOf : String → List Char → List (List Char)
  codon_to_amino_acid : List Char → Char

/-- Structured mutation tokens; each constructor corresponds to one
string-append site in the source (`gene@rPa`, `gene@RkA`,
`gene@p_ins_bases`, `gene@p_del_bases`). -/
inductive Token where
  | nucSNP (gene : String) (ref_base : Char) (p : Int) (alt_base : Char)
  | aaSNP (gene : String) (ref_aa : Char) (codon_index : Nat) (alt_aa : Char)
  | ins (gene : String) (p : Int) (bases : List Char)
  | del (gene : String) (p : Int) (bases : List Char)
deriving DecidableEq

/-- Result of the per-base scan loop: either the early `return mutations`
taken when a mismatch crosses the gene boundary, or normal loop exit with
the accumulated tokens and the (possibly mutated) working copy. -/
inductive ScanResult where
  | truncated (toks : List Token)
  | done (toks : List Token) (seq : List Char)
deriving DecidableEq

/-- Strand complementation of a base, `gumpy.Gene._complement` at the
interface the encoder needs: a and t swap, c and g swap. -/
def complement (b : Char) : Char :=
  if b = 'a' then 't'
  else if b = 't' then 'a'
  else if b = 'c' then 'g'
  else if b = 'g' then 'c'
  else b

/-- Embedding of `snp_number`: mismatch count of two windows zipped
together, where a pair counts only when both sides are non-gap and
differ. -/
def snp_number : List (Option Char) → List (Option Char) → Nat
  | a :: as, b :: bs =>
    (match a, b with
     | some x, some y => if x ≠ y then 1 else 0
     | _, _ => 0) + snp_number as bs
  | _, _ => 0

/-- Embedding of the `aa_mut` comprehension: 1-based indices of codon
pairs that differ, with the pair. The first argument is the running
0-based index of `enumerate`. -/
def aa_mut : Nat → List (List Char × List Char) → List (Nat × (List Char × List Char))
  | _, [] => []
  | i, (rc, ac) :: rest =>
    (if rc ≠ ac then [(i + 1, (rc, ac))] else []) ++ aa_mut (i + 1) rest

/-- Embedding of the synonymous-codon inner loop: one nucleotide SNP per
differing base of the codon pair, at position `(k - 1) * 3 + i + 1`. The
`Nat` argument is the running 0-based intra-codon offset. -/
def syn_tokens (gene : String) (k : Nat) : Nat → List (Char × Char) → List Token
  | _, [] => []
  | i, (rn, an) :: rest =>
    (if rn ≠ an then [Token.nucSNP gene rn (((k - 1) * 3 + i + 1 : Nat) : Int) an] else []) ++
      syn_tokens gene k (i + 1) rest

/-- Embedding of the codon-comparison phase shared by `snps` and
`rev_comp_snp`: for each differing codon pair emit the amino-acid SNP,
and when the translation is synonymous also the underlying nucleotide
SNPs. -/
def codon_tokens (gene : String) (translate : List Char → Char)
    (rc ac : List (List Char)) : List Token :=
  (aa_mut 0 (rc.zip ac)).flatMap (fun e =>
    [Token.aaSNP gene (translate e.2.1) e.1 (translate e.2.2)] ++
      (if translate e.2.1 = translate e.2.2 then syn_tokens gene e.1 0 (e.2.1.zip e.2.2) else []))

/-- Embedding of the per-base loop of `snps` (forward strand): truncate at
`end - (pos + index) <= 0`, emit promoter and non-coding SNPs eagerly,
apply coding changes to the working copy. -/
def snpsLoop (G : Genome) (gene : String) (pos : Int) :
    List (Option Char × Option Char) → Nat → List Token → List Char → ScanResult
  | [], _, acc, seq => .done acc seq
  | (oref, oalt) :: rest, index, acc, seq =>
    match oref, oalt with
    | some r, some a =>
      if r ≠ a then
        if (G.genes gene).end_ - (pos + index) ≤ 0 then .truncated acc
        else if pos + index - (G.genes gene).start < 0 then
          snpsLoop G gene pos rest (index + 1)
            (acc ++ [Token.nucSNP gene r (pos + index - (G.genes gene).start) a]) seq
        else if (G.genes gene).codes_protein = false then
          snpsLoop G gene pos rest (index + 1)
            (acc ++ [Token.nucSNP gene r (pos + index - (G.genes gene).start) a]) seq
        else
          snpsLoop G gene pos rest (index + 1) acc (seq.set (pos + index - 1).toNat a)
      else snpsLoop G gene pos rest (index + 1) acc seq
    | _, _ => snpsLoop G gene pos rest (index + 1) acc seq

/-- Embedding of `snps`: run the forward scan on a fresh copy of the
reference sequence; unless truncated, follow with the codon phase when
the gene codes protein. -/
def snps (G : Genome) (gene : String) (pos : Int)
    (ref alt : List (Option Char)) : List Token :=
  match snpsLoop G gene pos (ref.zip alt) 0 [] G.nucleotide_sequence with
  | .truncated acc => acc
  | .done acc seq =>
    if (G.genes gene).codes_protein then
      acc ++ codon_tokens gene G.codon_to_amino_acid
        (G.codonsOf gene G.nucleotide_sequence) (G.codonsOf gene seq)
    else acc

/-- Embedding of the per-base loop of `rev_comp_snp`: truncate at
`(pos + index) - start < 0`; promoter (`end - (pos+index) <= 0`) and
non-coding bases are emitted eagerly with complemented bases, promoter
offset `end - (pos+index)` and non-coding offset `end - (pos+index) - 1`;
coding changes go to the working copy. -/
def rev_comp_snpLoop (G : Genome) (gene : String) (pos : Int) :
    List (Option Char × Option Char) → Nat → List Token → List Char → ScanResult
  | [], _, acc, seq => .done acc seq
  | (oref, oalt) :: rest, index, acc, seq =>
    match oref, oalt with
    | some r, some a =>
      if r ≠ a then
        if pos + index - (G.genes gene).start < 0 then .truncated acc
        else if (G.genes gene).end_ - (pos + index) ≤ 0 ∨ (G.genes gene).codes_protein = false then
          rev_comp_snpLoop G gene pos rest (index + 1)
            (acc ++ [Token.nucSNP gene (complement r)
              (if (G.genes gene).end_ - (pos + index) ≤ 0 then (G.genes gene).end_ - (pos + index)
               else (G.genes gene).end_ - (pos + index) - 1)
              (complement a)]) seq
        else
          rev_comp_snpLoop G gene pos rest (index + 1) acc (seq.set (pos + index - 1).toNat a)
      else rev_comp_snpLoop G gene pos rest (index + 1) acc seq
    | _, _ => rev_comp_snpLoop G gene pos rest (index + 1) acc seq

/-- Embedding of `rev_comp_snp`: the reverse-complement scan followed by
the same codon phase as `snps`. -/
def rev_comp_snp (G : Genome) (gene : String) (pos : Int)
    (ref alt : List (Option Char)) : List Token :=
  match rev_comp_snpLoop G gene pos (ref.zip alt) 0 [] G.nucleotide_sequence with
  | .truncated acc => acc
  | .done acc seq =>
    if (G.genes gene).codes_protein then
      acc ++ codon_tokens gene G.codon_to_amino_acid
        (G.codonsOf gene G.nucleotide_sequence) (G.codonsOf gene seq)
    else acc

/-- Embedding of the candidate built inside the `del_calls` / `ins_calls`
search loops: the shorter window with `k` gap markers spliced in at
offset `x`. -/
def candidate (s : List Char) (k x : Nat) : List (Option Char) :=
  (s.take x).map some ++ List.replicate k none ++ (s.drop x).map some

/-- Embedding of the split search shared by `del_calls` and `ins_calls`:
fold over splits `0 .. len(s)` starting from `(None, 999, 0)`, replacing
the state whenever the candidate mismatch count is less than or equal to
the running minimum (so the last minimal split wins). -/
def indel_search (count : List (Option Char) → Nat) (s : List Char) (k : Nat) :
    Option (List (Option Char)) × Nat × Nat :=
  (List.range (s.length + 1)).foldl
    (fun st x =>
      if count (candidate s k x) ≤ st.2.1 then (some (candidate s k x), count (candidate s k x), x)
      else st)
    (none, 999, 0)

/-- Embedding of the comprehension selecting the bases of the longer
window at the gap offsets of a candidate (`seq` in the source). -/
def gap_bases (longer : List Char) (current : List (Option Char)) : List Char :=
  (longer.zip current).filterMap (fun p => if p.2 = none then some p.1 else none)

/-- Embedding of the comprehension selecting the bases of the longer
window at the non-gap offsets of a candidate (`alt1` in `ins_calls`). -/
def non_gap_bases (longer : List Char) (current : List (Option Char)) : List Char :=
  (longer.zip current).filterMap (fun p => if p.2 ≠ none then some p.1 else none)

/-- Embedding of `del_calls`: search for the split of the deleted bases
minimising residual SNPs, emit residual SNPs via `snps` /
`rev_comp_snp`, drop everything when the anchor falls past the 3-prime
boundary, apply the promoter zero-skip, and emit the deletion token
(bases complemented and reversed for reverse-complement genes, with the
anchor moved to the right-hand end). -/
def del_calls (G : Genome) (gene : String) (pos : Int)
    (ref alt : List Char) (rev_comp : Bool) : Option (List Token) :=
  match indel_search (fun alt1 => snp_number (ref.map some) alt1) alt (ref.length - alt.length) with
  | (none, _, _) => none
  | (some current, _, start) =>
    if rev_comp then
      let p := (G.genes gene).end_ - (pos + start)
      let r := (gap_bases ref current).map complement
      let snp := rev_comp_snp G gene pos (ref.map some) current
      if p - 1 > (G.genes gene).end_ - (G.genes gene).start then some []
      else
        let p1 := if p ≤ 0 then p - 1 else p
        some (snp ++ [Token.del gene (p1 - r.length + 1) r.reverse])
    else
      let p := pos - (G.genes gene).start + start
      let r := gap_bases ref current
      let snp := snps G gene pos (ref.map some) current
      if p > (G.genes gene).end_ - (G.genes gene).start then some []
      else
        let p1 := if p ≤ 0 then p - 1 else p
        some (snp ++ [Token.del gene p1 r])

/-- Embedding of `ins_calls`: search for the split of the inserted bases
minimising residual SNPs, emit residual SNPs on the gap-free remainder,
return only those when the anchor falls past the 3-prime boundary,
apply the reverse-complement offset step and the promoter zero-skip, and
emit the insertion token (bases complemented and reversed for
reverse-complement genes). -/
def ins_calls (G : Genome) (gene : String) (pos : Int)
    (ref alt : List Char) (rev_comp : Bool) : Option (List Token) :=
  match indel_search (fun ref1 => snp_number ref1 (alt.map some)) ref (alt.length - ref.length) with
  | (none, _, _) => none
  | (some current, _, start) =>
    if rev_comp then
      let p := (G.genes gene).end_ - (pos + start)
      let a := (gap_bases alt current).map complement
      let snp := rev_comp_snp G gene pos (ref.map some) ((non_gap_bases alt current).map some)
      if p - 1 > (G.genes gene).end_ - (G.genes gene).start then some snp
      else
        let p1 := if p ≤ 0 then p - 1 else p + 1
        let p2 := if p1 ≤ 0 then p1 - 1 else p1
        some (snp ++ [Token.ins gene p2 a.reverse])
    else
      let p := pos - (G.genes gene).start + start
      let a := gap_bases alt current
      let snp := snps G gene pos (ref.map some) ((non_gap_bases alt current).map some)
      if p > (G.genes gene).end_ - (G.genes gene).start then some snp
      else
        let p2 := if p ≤ 0 then p - 1 else p
        some (snp ++ [Token.ins gene p2 a])

/-- Heap of nucleotide arrays; cells are addressed by index, so aliasing
between the shared reference sequence and working copies is explicit. -/
abbrev Store := List (List Char)

/-- Read the array held in a cell. -/
def readArr (st : Store) (r : Nat) : List Char :=
  List.getD st r []

/-- Model of `.copy()`: allocate a fresh cell holding the same array and
return its address. -/
def copyArr (st : Store) (r : Nat) : Store × Nat :=
  (st ++ [readArr st r], List.length st)

/-- Model of `arr[i] = c` on the array held in a cell. -/
def writeArr (st : Store) (r : Nat) (i : Nat) (c : Char) : Store :=
  List.set st r ((readArr st r).set i c)

/-- The `gumpy.Genome` model with the nucleotide sequence held by
reference into a `Store`, as the process-wide shared reference data. -/
structure GenomeSt where
  nucleotide_sequence : Nat
  genes : String → GeneRecord
  codonsOf : String → List Char → List (List Char)
  codon_to_amino_acid : List Char → Char

/-- Store-passing embedding of the `snps` scan loop: the working copy is
the cell `seqRef`, and the coding branch writes through `writeArr`. -/
def snpsLoopSt (G : GenomeSt) (gene : String) (pos : Int) (seqRef : Nat) :
    List (Option Char × Option Char) → Nat → List Token → Store → ScanResult × Store
  | [], _, acc, st => (.done acc (readArr st seqRef), st)
  | (oref, oalt) :: rest, index, acc, st =>
    match oref, oalt with
    | some r, some a =>
      if r ≠ a then
        if (G.genes gene).end_ - (pos + index) ≤ 0 then (.truncated acc, st)
        else if pos + index - (G.genes gene).start < 0 then
          snpsLoopSt G gene pos seqRef rest (index + 1)
            (acc ++ [Token.nucSNP gene r (pos + index - (G.genes gene).start) a]) st
        else if (G.genes gene).codes_protein = false then
          snpsLoopSt G gene pos seqRef rest (index + 1)
            (acc ++ [Token.nucSNP gene r (pos + index - (G.genes gene).start) a]) st
        else
          snpsLoopSt G gene pos seqRef rest (index + 1) acc
            (writeArr st seqRef (pos + index - 1).toNat a)
      else snpsLoopSt G gene pos seqRef rest (index + 1) acc st
    | _, _ => snpsLoopSt G gene pos seqRef rest (index + 1) acc st

/-- Store-passing embedding of `snps`: copy the shared sequence into a
fresh cell, scan writing only into that cell, and run the codon phase on
reads; the final store is returned alongside the tokens. -/
def snpsSt (G : GenomeSt) (gene : String) (pos : Int)
    (ref alt : List (Option Char)) (st : Store) : List Token × Store :=
  let c := copyArr st G.nucleotide_sequence
  let res := snpsLoopSt G gene pos c.2 (ref.zip alt) 0 [] c.1
  (match res.1 with
   | .truncated acc => acc
   | .done acc seq =>
     if (G.genes gene).codes_protein then
       acc ++ codon_tokens gene G.codon_to_amino_acid
         (G.codonsOf gene (readArr res.2 G.nucleotide_sequence)) (G.codonsOf gene seq)
     else acc,
   res.2)

/-- Store-passing embedding of the `rev_comp_snp` scan loop. -/
def rev_comp_snpLoopSt (G : GenomeSt) (gene : String) (pos : Int) (seqRef : Nat) :
    List (Option Char × Option Char) → Nat → List Token → Store → ScanResult × Store
  | [], _, acc, st => (.done acc (readArr st seqRef), st)
  | (oref, oalt) :: rest, index, acc, st =>
    match oref, oalt with
    | some r, some a =>
      if r ≠ a then
        if pos + index - (G.genes gene).start < 0 then (.truncated acc, st)
        else if (G.genes gene).end_ - (pos + index) ≤ 0 ∨ (G.genes gene).codes_protein = false then
          rev_comp_snpLoopSt G gene pos seqRef rest (index + 1)
            (acc ++ [Token.nucSNP gene (complement r)
              (if (G.genes gene).end_ - (pos + index) ≤ 0 then (G.genes gene).end_ - (pos + index)
               else (G.genes gene).end_ - (pos + index) - 1)
              (complement a)]) st
        else
          rev_comp_snpLoopSt G gene pos seqRef rest (index + 1) acc
            (writeArr st seqRef (pos + index - 1).toNat a)
      else rev_comp_snpLoopSt G gene pos seqRef rest (index + 1) acc st
    | _, _ => rev_comp_snpLoopSt G gene pos seqRef rest (index + 1) acc st

/-- Store-passing embedding of `rev_comp_snp`. -/
def rev_comp_snpSt (G : GenomeSt) (gene : String) (pos : Int)
    (ref alt : List (Option Char)) (st : Store) : List Token × Store :=
  let c := copyArr st G.nucleotide_sequence
  let res := rev_comp_snpLoopSt G gene pos c.2 (ref.zip alt) 0 [] c.1
  (match res.1 with
   | .truncated acc => acc
   | .done acc seq =>
     if (G.genes gene).codes_protein then
       acc ++ codon_tokens gene G.codon_to_amino_acid
         (G.codonsOf gene (readArr res.2 G.nucleotide_sequence)) (G.codonsOf gene seq)
     else acc,
   res.2)

/-- Symmetry of the per-pair mismatch test, lifted over the recursion of
`snp_number`. -/
theorem snp_number_symm (a b : List (Option Char)) : snp_number a b = snp_number b a := by
  induction a generalizing b with
  | nil => cases b <;> rfl
  | cons x as ih =>
    cases b with
    | nil => rfl
    | cons y bs =>
      simp only [snp_number, ih bs]
      congr 1
      cases x <;> cases y <;> simp only []
      rename_i cx cy
      by_cases h : cx = cy
      · subst h; simp
      · simp [h, Ne.symm h]

/-- C8. For all equal-length sequences of bases or gap markers,
`snp_number` is symmetric in its two arguments. -/
theorem c8_snp_number_symmetric (a b : List (Option Char))
    (h : a.length = b.length) : snp_number a b = snp_number b a :=
  snp_number_symm a b

/-- Witness for C8 at a concrete pair of equal-length windows. -/
theorem c8_snp_number_symmetric_witness :
    ([some 'a', none, some 'c'] : List (Option Char)).length = [some 't', some 'g', none].length ∧
      snp_number [some 'a', none, some 'c'] [some 't', some 'g', none] =
        snp_number [some 't', some 'g', none] [some 'a', none, some 'c'] :=
  ⟨by decide, c8_snp_number_symmetric [some 'a', none, some 'c'] [some 't', some 'g', none] (by decide)⟩

/-- C7. The forward scan stops entirely on meeting a mismatching base at
or past the gene end, returning exactly the tokens accumulated so far as
the complete (no-error) result of the call; the reverse-complement scan
mirrors this for positions before the gene start. -/
theorem c7_boundary_truncation :
    (∀ (G : Genome) (gene : String) (pos : Int) (r a : Char)
        (rest : List (Option Char × Option Char)) (index : Nat) (acc : List Token) (seq : List Char),
      r ≠ a → (G.genes gene).end_ - (pos + index) ≤ 0 →
      snpsLoop G gene pos ((some r, some a) :: rest) index acc seq = ScanResult.truncated acc) ∧
    (∀ (G : Genome) (gene : String) (pos : Int) (ref alt : List (Option Char)) (acc : List Token),
      snpsLoop G gene pos (ref.zip alt) 0 [] G.nucleotide_sequence = ScanResult.truncated acc →
      snps G gene pos ref alt = acc) ∧
    (∀ (G : Genome) (gene : String) (pos : Int) (r a : Char)
        (rest : List (Option Char × Option Char)) (index : Nat) (acc : List Token) (seq : List Char),
      r ≠ a → pos + index - (G.genes gene).start < 0 →
      rev_comp_snpLoop G gene pos ((some r, some a) :: rest) index acc seq = ScanResult.truncated acc) ∧
    (∀ (G : Genome) (gene : String) (pos : Int) (ref alt : List (Option Char)) (acc : List Token),
      rev_comp_snpLoop G gene pos (ref.zip alt) 0 [] G.nucleotide_sequence = ScanResult.truncated acc →
      rev_comp_snp G gene pos ref alt = acc) := by
  refine ⟨?_, ?_, ?_, ?_⟩
  · intro G gene pos r a rest index acc seq hne hpast
    simp [snpsLoop, hne, hpast]
  · intro G gene pos ref alt acc h
    simp only [snps, h]
  · intro G gene pos r a rest index acc seq hne hpast
    simp [rev_comp_snpLoop, hne, hpast]
  · intro G gene pos ref alt acc h
    simp only [rev_comp_snp, h]

/-- Concrete genome used by the C7 witness: a protein-coding forward gene
spanning positions 10 to 20. -/
def genomeC7 : Genome :=
  ⟨['x'], fun _ => ⟨10, 20, true, false⟩, fun _ _ => [], fun _ => 'X'⟩

/-- Witness for C7: a mismatch exactly at the gene end truncates the
forward scan to the empty accumulator, and a mismatch before the gene
start truncates the reverse-complement scan. -/
theorem c7_boundary_truncation_witness :
    ('a' ≠ 'g') ∧
    snpsLoop genomeC7 "g" 20 [(some 'a', some 'g')] 0 [] genomeC7.nucleotide_sequence =
      ScanResult.truncated [] ∧
    snps genomeC7 "g" 20 [some 'a'] [some 'g'] = [] ∧
    rev_comp_snpLoop genomeC7 "g" 5 [(some 'a', some 'g')] 0 [] genomeC7.nucleotide_sequence =
      ScanResult.truncated [] ∧
    rev_comp_snp genomeC7 "g" 5 [some 'a'] [some 'g'] = [] := by
  refine ⟨by decide, ?_, ?_, ?_, ?_⟩
  · exact c7_boundary_truncation.1 genomeC7 "g" 20 'a' 'g' [] 0 [] genomeC7.nucleotide_sequence
      (by decide) (by decide)
  · exact c7_boundary_truncation.2.1 genomeC7 "g" 20 [some 'a'] [some 'g'] [] (by decide)
  · exact c7_boundary_truncation.2.2.1 genomeC7 "g" 5 'a' 'g' [] 0 [] genomeC7.nucleotide_sequence
      (by decide) (by decide)
  · exact c7_boundary_truncation.2.2.2 genomeC7 "g" 5 [some 'a'] [some 'g'] [] (by decide)

/-- Comparing a codon list against itself yields no differing entries. -/
theorem aa_mut_zip_self (i : Nat) (L : List (List Char)) : aa_mut i (L.zip L) = [] := by
  induction L generalizing i with
  | nil => rfl
  | cons c cs ih =>
    simp only [List.zip_cons_cons, aa_mut, ne_eq, not_true_eq_false, ite_false, if_neg,
      List.nil_append]
    exact ih (i + 1)

/-- The codon phase on an unchanged working copy emits nothing. -/
theorem codon_tokens_self (gene : String) (translate : List Char → Char)
    (L : List (List Char)) : codon_tokens gene translate L L = [] := by
  simp [codon_tokens, aa_mut_zip_self]

/-- C6. In `rev_comp_snp`, a mismatching base at or past the gene end
(promoter) yields relative offset `end - abs`, a mismatching base in a
non-coding gene body yields `end - abs - 1`, and in both cases the
emitted bases are complemented. -/
theorem c6_rev_comp_offsets (G : Genome) (gene : String) (pos : Int) (r a : Char)
    (hne : r ≠ a) (hstart : 0 ≤ pos - (G.genes gene).start) :
    ((G.genes gene).end_ - pos ≤ 0 →
      rev_comp_snp G gene pos [some r] [some a] =
        [Token.nucSNP gene (complement r) ((G.genes gene).end_ - pos) (complement a)]) ∧
    (0 < (G.genes gene).end_ - pos → (G.genes gene).codes_protein = false →
      rev_comp_snp G gene pos [some r] [some a] =
        [Token.nucSNP gene (complement r) ((G.genes gene).end_ - pos - 1) (complement a)]) := by
  have h1 : ¬ pos < (G.genes gene).start := by omega
  constructor
  · intro hpast
    have h2 : (G.genes gene).end_ ≤ pos := by omega
    simp [rev_comp_snp, rev_comp_snpLoop, hne, h1, h2, codon_tokens_self]
  · intro hpos hcode
    have h2 : ¬ (G.genes gene).end_ ≤ pos := by omega
    simp [rev_comp_snp, rev_comp_snpLoop, hne, h1, h2, hcode]

/-- Concrete genome used by the C6 witness: reverse-complement genes on
positions 1 to 5, one protein-coding (name g) and one non-coding
(name nc). -/
def genomeC6 : Genome :=
  ⟨['a', 'c', 'g'],
   fun n => if n = "nc" then ⟨1, 5, false, true⟩ else ⟨1, 5, true, true⟩,
   fun _ s => [s.take 3],
   fun _ => 'K'⟩

/-- Witness for C6: a promoter mismatch at position 6 of a coding
reverse-complement gene gives offset `5 - 6 = -1`, and a gene-body
mismatch at position 3 of a non-coding one gives offset `5 - 3 - 1 = 1`,
both with complemented bases. -/
theorem c6_rev_comp_offsets_witness :
    ('a' ≠ 'g') ∧
    rev_comp_snp genomeC6 "g" 6 [some 'a'] [some 'g'] =
      [Token.nucSNP "g" 't' (-1) 'c'] ∧
    rev_comp_snp genomeC6 "nc" 3 [some 'a'] [some 'g'] =
      [Token.nucSNP "nc" 't' 1 'c'] := by
  refine ⟨by decide, ?_, ?_⟩
  · exact (c6_rev_comp_offsets genomeC6 "g" 6 'a' 'g' (by decide) (by decide)).1 (by decide)
  · exact (c6_rev_comp_offsets genomeC6 "nc" 3 'a' 'g' (by decide) (by decide)).2 (by decide) (by decide)

/-- Zipping preserves indexed lookups. -/
theorem get_zip_some {α β : Type} : ∀ (l1 : List α) (l2 : List β) (j : Nat) (x : α) (y : β),
    l1.get? j = some x → l2.get? j = some y → (l1.zip l2).get? j = some (x, y)
  | [], _, j, _, _, h1, _ => by simp at h1
  | _ :: _, [], j, _, _, _, h2 => by simp at h2
  | a :: as, b :: bs, 0, x, y, h1, h2 => by
    simp only [List.get?_cons_zero, Option.some_inj] at h1 h2
    simp [h1, h2]
  | a :: as, b :: bs, j + 1, x, y, h1, h2 => by
    simpa using get_zip_some as bs j x y (by simpa using h1) (by simpa using h2)

/-- A differing pair at 0-based offset `j` of the zipped codon lists is
listed by `aa_mut` with 1-based index `i + j + 1`. -/
theorem aa_mut_mem : ∀ (l : List (List Char × List Char)) (i j : Nat) (x y : List Char),
    l.get? j = some (x, y) → x ≠ y → (i + j + 1, (x, y)) ∈ aa_mut i l
  | [], _, j, _, _, h, _ => by simp at h
  | (rc, ac) :: rest, i, 0, x, y, h, hne => by
    simp only [List.get?_cons_zero, Option.some_inj, Prod.mk.injEq] at h
    rw [h.1, h.2]
    simp [aa_mut, hne]
  | (rc, ac) :: rest, i, j + 1, x, y, h, hne => by
    simp only [List.get?_cons_succ] at h
    have ih := aa_mut_mem rest (i + 1) j x y h hne
    have harith : i + 1 + j + 1 = i + (j + 1) + 1 := by omega
    rw [harith] at ih
    simp only [aa_mut, List.mem_append]
    exact Or.inr ih

/-- A differing base pair at 0-based offset `j` within a synonymous codon
contributes a nucleotide SNP at position `(k - 1) * 3 + (i + j) + 1`. -/
theorem syn_tokens_mem (gene : String) (k : Nat) :
    ∀ (l : List (Char × Char)) (i j : Nat) (rn an : Char),
    l.get? j = some (rn, an) → rn ≠ an →
    Token.nucSNP gene rn (((k - 1) * 3 + (i + j) + 1 : Nat) : Int) an ∈ syn_tokens gene k i l
  | [], _, j, _, _, h, _ => by simp at h
  | (b, c) :: rest, i, 0, rn, an, h, hne => by
    simp only [List.get?_cons_zero, Option.some_inj, Prod.mk.injEq] at h
    rw [h.1, h.2]
    simp [syn_tokens, hne]
  | (b, c) :: rest, i, j + 1, rn, an, h, hne => by
    simp only [List.get?_cons_succ] at h
    have ih := syn_tokens_mem gene k rest (i + 1) j rn an h hne
    have harith : i + 1 + j = i + (j + 1) := by omega
    rw [harith] at ih
    simp only [syn_tokens, List.mem_append]
    exact Or.inr ih

/-- C5. On a protein-coding gene each differing codon pair at 1-based
index `k` contributes an amino-acid SNP token; when the translation is
synonymous, each differing base of the codon additionally contributes a
nucleotide SNP at `(k - 1) * 3 + offset + 1`; and the codon phase output
is appended to the scan tokens by both `snps` and `rev_comp_snp`. -/
theorem c5_synonymous_codon (G : Genome) (gene : String) (mutSeq : List Char)
    (k : Nat) (rcodon acodon : List Char)
    (hk : 1 ≤ k)
    (hr : (G.codonsOf gene G.nucleotide_sequence).get? (k - 1) = some rcodon)
    (ha : (G.codonsOf gene mutSeq).get? (k - 1) = some acodon)
    (hne : rcodon ≠ acodon) :
    Token.aaSNP gene (G.codon_to_amino_acid rcodon) k (G.codon_to_amino_acid acodon) ∈
      codon_tokens gene G.codon_to_amino_acid
        (G.codonsOf gene G.nucleotide_sequence) (G.codonsOf gene mutSeq) ∧
    (G.codon_to_amino_acid rcodon = G.codon_to_amino_acid acodon →
      ∀ (i : Nat) (rn an : Char), rcodon.get? i = some rn → acodon.get? i = some an → rn ≠ an →
      Token.nucSNP gene rn (((k - 1) * 3 + i + 1 : Nat) : Int) an ∈
        codon_tokens gene G.codon_to_amino_acid
          (G.codonsOf gene G.nucleotide_sequence) (G.codonsOf gene mutSeq)) ∧
    (∀ (pos : Int) (ref alt : List (Option Char)) (acc : List Token) (seq : List Char),
      snpsLoop G gene pos (ref.zip alt) 0 [] G.nucleotide_sequence = ScanResult.done acc seq →
      (G.genes gene).codes_protein = true →
      snps G gene pos ref alt = acc ++ codon_tokens gene G.codon_to_amino_acid
        (G.codonsOf gene G.nucleotide_sequence) (G.codonsOf gene seq)) ∧
    (∀ (pos : Int) (ref alt : List (Option Char)) (acc : List Token) (seq : List Char),
      rev_comp_snpLoop G gene pos (ref.zip alt) 0 [] G.nucleotide_sequence =
        ScanResult.done acc seq →
      (G.genes gene).codes_protein = true →
      rev_comp_snp G gene pos ref alt = acc ++ codon_tokens gene G.codon_to_amino_acid
        (G.codonsOf gene G.nucleotide_sequence) (G.codonsOf gene seq)) := by
  have hzip := get_zip_some _ _ (k - 1) rcodon acodon hr ha
  have hmem := aa_mut_mem _ 0 (k - 1) rcodon acodon hzip hne
  have hk1 : 0 + (k - 1) + 1 = k := by omega
  rw [hk1] at hmem
  refine ⟨?_, ?_, ?_, ?_⟩
  · exact List.mem_flatMap.2 ⟨(k, (rcodon, acodon)), hmem, List.mem_append.2 (Or.inl (by simp))⟩
  · intro hsyn i rn an hrn han hbne
    have hz2 := get_zip_some rcodon acodon i rn an hrn han
    have hm2 := syn_tokens_mem gene k _ 0 i rn an hz2 hbne
    rw [Nat.zero_add] at hm2
    refine List.mem_flatMap.2 ⟨(k, (rcodon, acodon)), hmem, List.mem_append.2 (Or.inr ?_)⟩
    simpa [hsyn] using hm2
  · intro pos ref alt acc seq h hcp
    simp [snps, h, hcp]
  · intro pos ref alt acc seq h hcp
    simp [rev_comp_snp, h, hcp]

/-- Concrete genome used by the C5 witness: a protein-coding gene whose
codon rebuild takes the first three bases, with a constant translation so
the codon change is synonymous. -/
def genomeC5 : Genome :=
  ⟨['a', 'a', 'a'], fun _ => ⟨1, 5, true, false⟩, fun _ s => [s.take 3], fun _ => 'K'⟩

/-- Witness for C5: the codon change aaa to aag at codon 1 is synonymous
under the constant translation, so both the amino-acid token K1K and the
nucleotide token a3g are emitted. -/
theorem c5_synonymous_codon_witness :
    Token.aaSNP "g" 'K' 1 'K' ∈
      codon_tokens "g" genomeC5.codon_to_amino_acid
        (genomeC5.codonsOf "g" genomeC5.nucleotide_sequence)
        (genomeC5.codonsOf "g" ['a', 'a', 'g']) ∧
    Token.nucSNP "g" 'a' 3 'g' ∈
      codon_tokens "g" genomeC5.codon_to_amino_acid
        (genomeC5.codonsOf "g" genomeC5.nucleotide_sequence)
        (genomeC5.codonsOf "g" ['a', 'a', 'g']) := by
  have h := c5_synonymous_codon genomeC5 "g" ['a', 'a', 'g'] 1 ['a', 'a', 'a'] ['a', 'a', 'g']
    (by decide) (by decide) (by decide) (by decide)
  exact ⟨h.1, h.2.1 (by decide) 2 'a' 'g' (by decide) (by decide) (by decide)⟩

/-- Invariant of the split-search fold over splits `0 .. n`: once the
split-0 candidate fits under the initial bound 999, the state holds the
last split achieving the minimum candidate mismatch count. -/
theorem indel_search_aux (count : List (Option Char) → Nat) (s : List Char) (k : Nat)
    (h : count (candidate s k 0) ≤ 999) : ∀ n : Nat,
    ∃ x, (List.range (n + 1)).foldl
        (fun st x => if count (candidate s k x) ≤ st.2.1 then
          (some (candidate s k x), count (candidate s k x), x) else st)
        (none, 999, 0) = (some (candidate s k x), count (candidate s k x), x) ∧
      x ≤ n ∧ (∀ y, y ≤ n → count (candidate s k x) ≤ count (candidate s k y)) ∧
      (∀ y, y ≤ n → count (candidate s k y) = count (candidate s k x) → y ≤ x) := by
  intro n
  induction n with
  | zero =>
    refine ⟨0, ?_, Nat.le_refl 0, ?_, ?_⟩
    · simp [List.range_succ, List.range_zero, h]
    · intro y hy
      have : y = 0 := Nat.le_zero.mp hy
      rw [this]
    · intro y hy _
      exact hy
  | succ n ih =>
    obtain ⟨x, hfold, hxle, hmin, htie⟩ := ih
    rw [List.range_succ, List.foldl_append, hfold]
    simp only [List.foldl_cons, List.foldl_nil]
    by_cases hc : count (candidate s k (n + 1)) ≤ count (candidate s k x)
    · refine ⟨n + 1, ?_, Nat.le_refl _, ?_, ?_⟩
      · rw [if_pos hc]
      · intro y hy
        rcases Nat.lt_or_ge y (n + 1) with h1 | h1
        · exact le_trans hc (hmin y (by omega))
        · have : y = n + 1 := by omega
          rw [this]
      · intro y hy _
        exact hy
    · refine ⟨x, ?_, by omega, ?_, ?_⟩
      · rw [if_neg hc]
      · intro y hy
        rcases Nat.lt_or_ge y (n + 1) with h1 | h1
        · exact hmin y (by omega)
        · have : y = n + 1 := by omega
          rw [this]
          omega
      · intro y hy heq
        rcases Nat.lt_or_ge y (n + 1) with h1 | h1
        · exact htie y (by omega) heq
        · have : y = n + 1 := by omega
          rw [this] at heq
          omega

/-- Specification of `indel_search`: the returned split is the last one
attaining the minimum candidate mismatch count over splits
`0 .. len(s)`. -/
theorem indel_search_spec (count : List (Option Char) → Nat) (s : List Char) (k : Nat)
    (h : count (candidate s k 0) ≤ 999) :
    ∃ x, indel_search count s k = (some (candidate s k x), count (candidate s k x), x) ∧
      x ≤ s.length ∧
      (∀ y, y ≤ s.length → count (candidate s k x) ≤ count (candidate s k y)) ∧
      (∀ y, y ≤ s.length → count (candidate s k y) = count (candidate s k x) → y ≤ x) := by
  obtain ⟨x, h1, h2, h3, h4⟩ := indel_search_aux count s k h s.length
  exact ⟨x, by rw [indel_search]; exact h1, h2, h3, h4⟩

/-- The mismatch count is bounded by the number of non-gap entries of the
second window (gap markers never count). -/
theorem snp_number_le_somes : ∀ (a b : List (Option Char)),
    snp_number a b ≤ b.countP (fun o => o.isSome)
  | [], b => by cases b <;> simp [snp_number]
  | _ :: _, [] => by simp [snp_number]
  | a :: as, b :: bs => by
    have ih := snp_number_le_somes as bs
    have hdef : snp_number (a :: as) (b :: bs) =
        (match a, b with
         | some x, some y => if x ≠ y then 1 else 0
         | _, _ => 0) + snp_number as bs := rfl
    rw [hdef, List.countP_cons]
    rcases a with _ | cx <;> rcases b with _ | cy
    · simp only [Option.isSome_none]
      omega
    · simp only [Option.isSome_some, if_pos]
      omega
    · simp only [Option.isSome_none]
      omega
    · by_cases hxy : cx = cy
      · simp only [Option.isSome_some, hxy, ne_eq, not_true_eq_false, ite_false]
        omega
      · simp only [Option.isSome_some, hxy, ne_eq, not_false_eq_true, ite_true]
        omega

/-- Mapping a window of plain bases to non-gap entries gives a candidate
segment whose non-gap count is its length. -/
theorem countP_isSome_map_some (l : List Char) :
    (l.map some).countP (fun o => o.isSome) = l.length := by
  induction l with
  | nil => rfl
  | cons c cs ih => simp [List.countP_cons, ih]

/-- A run of gap markers contributes no non-gap entries. -/
theorem countP_isSome_replicate_none (n : Nat) :
    (List.replicate n (none : Option Char)).countP (fun o => o.isSome) = 0 := by
  induction n with
  | zero => rfl
  | succ n ih => simp [List.replicate_succ, List.countP_cons, ih]

/-- Every split candidate has exactly `len(s)` non-gap entries. -/
theorem countP_somes_candidate (s : List Char) (k x : Nat) :
    (candidate s k x).countP (fun o => o.isSome) = s.length := by
  have hlen := congrArg List.length (List.take_append_drop x s)
  rw [List.length_append] at hlen
  rw [candidate, List.countP_append, List.countP_append, countP_isSome_map_some,
    countP_isSome_map_some, countP_isSome_replicate_none]
  omega

/-- C2. For a length-mismatched pair the split search of `del_calls`
(first conjunct, gaps spliced into the alt window and counted against
the ref window) and of `ins_calls` (second conjunct, gaps spliced into
the ref window and counted against the alt window) returns a split
attaining the minimum `snp_number` over all splits `0 .. len(shorter)`,
and among ties the highest-index split. -/
theorem c2_best_split (ref alt : List Char) :
    (alt.length ≤ 999 →
      ∃ x, indel_search (fun alt1 => snp_number (ref.map some) alt1) alt
            (ref.length - alt.length) =
          (some (candidate alt (ref.length - alt.length) x),
           snp_number (ref.map some) (candidate alt (ref.length - alt.length) x), x) ∧
        x ≤ alt.length ∧
        (∀ y, y ≤ alt.length →
          snp_number (ref.map some) (candidate alt (ref.length - alt.length) x) ≤
            snp_number (ref.map some) (candidate alt (ref.length - alt.length) y)) ∧
        (∀ y, y ≤ alt.length →
          snp_number (ref.map some) (candidate alt (ref.length - alt.length) y) =
            snp_number (ref.map some) (candidate alt (ref.length - alt.length) x) → y ≤ x)) ∧
    (ref.length ≤ 999 →
      ∃ x, indel_search (fun ref1 => snp_number ref1 (alt.map some)) ref
            (alt.length - ref.length) =
          (some (candidate ref (alt.length - ref.length) x),
           snp_number (candidate ref (alt.length - ref.length) x) (alt.map some), x) ∧
        x ≤ ref.length ∧
        (∀ y, y ≤ ref.length →
          snp_number (candidate ref (alt.length - ref.length) x) (alt.map some) ≤
            snp_number (candidate ref (alt.length - ref.length) y) (alt.map some)) ∧
        (∀ y, y ≤ ref.length →
          snp_number (candidate ref (alt.length - ref.length) y) (alt.map some) =
            snp_number (candidate ref (alt.length - ref.length) x) (alt.map some) → y ≤ x)) := by
  constructor
  · intro hlen
    have hbound : snp_number (ref.map some) (candidate alt (ref.length - alt.length) 0) ≤ 999 :=
      le_trans (le_trans (snp_number_le_somes _ _) (le_of_eq (countP_somes_candidate _ _ _))) hlen
    exact indel_search_spec _ alt (ref.length - alt.length) hbound
  · intro hlen
    have hbound : snp_number (candidate ref (alt.length - ref.length) 0) (alt.map some) ≤ 999 := by
      rw [snp_number_symm]
      exact le_trans (le_trans (snp_number_le_somes _ _)
        (le_of_eq (countP_somes_candidate _ _ _))) hlen
    obtain ⟨x, h1, h2, h3, h4⟩ := indel_search_spec
      (fun ref1 => snp_number ref1 (alt.map some)) ref (alt.length - ref.length) hbound
    exact ⟨x, h1, h2, h3, h4⟩

/-- Witness for C2 on the repeating-base example ref aaa, alt aa: all
three deletion splits tie at zero mismatches and the search returns the
highest split 2. -/
theorem c2_best_split_witness :
    (['a', 'a'] : List Char).length ≤ 999 ∧
    ∃ x, indel_search (fun alt1 => snp_number (['a', 'a', 'a'].map some) alt1) ['a', 'a'] 1 =
        (some (candidate ['a', 'a'] 1 x),
         snp_number (['a', 'a', 'a'].map some) (candidate ['a', 'a'] 1 x), x) ∧
      x ≤ (['a', 'a'] : List Char).length ∧
      (∀ y, y ≤ (['a', 'a'] : List Char).length →
        snp_number (['a', 'a', 'a'].map some) (candidate ['a', 'a'] 1 x) ≤
          snp_number (['a', 'a', 'a'].map some) (candidate ['a', 'a'] 1 y)) ∧
      (∀ y, y ≤ (['a', 'a'] : List Char).length →
        snp_number (['a', 'a', 'a'].map some) (candidate ['a', 'a'] 1 y) =
          snp_number (['a', 'a', 'a'].map some) (candidate ['a', 'a'] 1 x) → y ≤ x) :=
  ⟨by decide, (c2_best_split ['a', 'a', 'a'] ['a', 'a']).1 (by decide)⟩

/-- Unfolding of `del_calls` on a forward gene once the search result is
known. -/
theorem del_calls_fwd_eq (G : Genome) (gene : String) (pos : Int) (ref alt : List Char)
    (cur : List (Option Char)) (m x : Nat)
    (hs : indel_search (fun alt1 => snp_number (ref.map some) alt1) alt
      (ref.length - alt.length) = (some cur, m, x)) :
    del_calls G gene pos ref alt false =
      (if pos - (G.genes gene).start + (x : Int) > (G.genes gene).end_ - (G.genes gene).start
       then some []
       else some (snps G gene pos (ref.map some) cur ++
         [Token.del gene
           (if pos - (G.genes gene).start + (x : Int) ≤ 0 then
              pos - (G.genes gene).start + (x : Int) - 1
            else pos - (G.genes gene).start + (x : Int))
           (gap_bases ref cur)])) := by
  unfold del_calls
  rw [hs]
  rfl

/-- Unfolding of `del_calls` on a reverse-complement gene once the search
result is known. -/
theorem del_calls_rev_eq (G : Genome) (gene : String) (pos : Int) (ref alt : List Char)
    (cur : List (Option Char)) (m x : Nat)
    (hs : indel_search (fun alt1 => snp_number (ref.map some) alt1) alt
      (ref.length - alt.length) = (some cur, m, x)) :
    del_calls G gene pos ref alt true =
      (if (G.genes gene).end_ - (pos + (x : Int)) - 1 > (G.genes gene).end_ - (G.genes gene).start
       then some []
       else some (rev_comp_snp G gene pos (ref.map some) cur ++
         [Token.del gene
           ((if (G.genes gene).end_ - (pos + (x : Int)) ≤ 0 then
               (G.genes gene).end_ - (pos + (x : Int)) - 1
             else (G.genes gene).end_ - (pos + (x : Int))) -
             (((gap_bases ref cur).map complement).length : Int) + 1)
           ((gap_bases ref cur).map complement).reverse])) := by
  unfold del_calls
  rw [hs]
  rfl

/-- Unfolding of `ins_calls` on a forward gene once the search result is
known. -/
theorem ins_calls_fwd_eq (G : Genome) (gene : String) (pos : Int) (ref alt : List Char)
    (cur : List (Option Char)) (m x : Nat)
    (hs : indel_search (fun ref1 => snp_number ref1 (alt.map some)) ref
      (alt.length - ref.length) = (some cur, m, x)) :
    ins_calls G gene pos ref alt false =
      (if pos - (G.genes gene).start + (x : Int) > (G.genes gene).end_ - (G.genes gene).start
       then some (snps G gene pos (ref.map some) ((non_gap_bases alt cur).map some))
       else some (snps G gene pos (ref.map some) ((non_gap_bases alt cur).map some) ++
         [Token.ins gene
           (if pos - (G.genes gene).start + (x : Int) ≤ 0 then
              pos - (G.genes gene).start + (x : Int) - 1
            else pos - (G.genes gene).start + (x : Int))
           (gap_bases alt cur)])) := by
  unfold ins_calls
  rw [hs]
  rfl

/-- Unfolding of `ins_calls` on a reverse-complement gene once the search
result is known; note the two successive promoter adjustments. -/
theorem ins_calls_rev_eq (G : Genome) (gene : String) (pos : Int) (ref alt : List Char)
    (cur : List (Option Char)) (m x : Nat)
    (hs : indel_search (fun ref1 => snp_number ref1 (alt.map some)) ref
      (alt.length - ref.length) = (some cur, m, x)) :
    ins_calls G gene pos ref alt true =
      (if (G.genes gene).end_ - (pos + (x : Int)) - 1 > (G.genes gene).end_ - (G.genes gene).start
       then some (rev_comp_snp G gene pos (ref.map some) ((non_gap_bases alt cur).map some))
       else some (rev_comp_snp G gene pos (ref.map some) ((non_gap_bases alt cur).map some) ++
         [Token.ins gene
           (if (if (G.genes gene).end_ - (pos + (x : Int)) ≤ 0 then
                  (G.genes gene).end_ - (pos + (x : Int)) - 1
                else (G.genes gene).end_ - (pos + (x : Int)) + 1) ≤ 0 then
              (if (G.genes gene).end_ - (pos + (x : Int)) ≤ 0 then
                 (G.genes gene).end_ - (pos + (x : Int)) - 1
               else (G.genes gene).end_ - (pos + (x : Int)) + 1) - 1
            else
              (if (G.genes gene).end_ - (pos + (x : Int)) ≤ 0 then
                 (G.genes gene).end_ - (pos + (x : Int)) - 1
               else (G.genes gene).end_ - (pos + (x : Int)) + 1))
           ((gap_bases alt cur).map complement).reverse])) := by
  unfold ins_calls
  rw [hs]
  rfl

/-- Extraction against a gap-free window selects nothing. -/
theorem gap_bases_map_some : ∀ (xs ys : List Char), gap_bases xs (ys.map some) = []
  | [], _ => rfl
  | _ :: _, [] => rfl
  | x :: xs, y :: ys => by
    simpa [gap_bases] using gap_bases_map_some xs ys

/-- Extraction skips an initial gap-free segment of equal length. -/
theorem gap_bases_append_somes : ∀ (xs : List Char) (ys : List Char) (zs : List Char)
    (ws : List (Option Char)), xs.length = ys.length →
    gap_bases (xs ++ zs) (ys.map some ++ ws) = gap_bases zs ws
  | [], [], _, _, _ => rfl
  | [], _ :: _, _, _, h => by simp at h
  | _ :: _, [], _, _, h => by simp at h
  | x :: xs, y :: ys, zs, ws, h => by
    have h' : xs.length = ys.length := by simpa using h
    simpa [gap_bases] using gap_bases_append_somes xs ys zs ws h'

/-- Extraction takes the bases aligned with a leading run of gaps. -/
theorem gap_bases_replicate : ∀ (k : Nat) (xs : List Char) (ws : List (Option Char)),
    k ≤ xs.length →
    gap_bases xs (List.replicate k none ++ ws) = xs.take k ++ gap_bases (xs.drop k) ws
  | 0, xs, ws, _ => by simp
  | k + 1, [], _, h => by simp at h
  | k + 1, x :: xs, ws, h => by
    have h' : k ≤ xs.length := by simpa using h
    simpa [gap_bases, List.replicate_succ] using gap_bases_replicate k xs ws h'

/-- The bases selected at the gap offsets of the candidate at split `x`
are the `k` bases of the longer window starting at offset `x`. -/
theorem gap_bases_candidate (longer s : List Char) (k x : Nat)
    (hx : x ≤ s.length) (hlen : longer.length = s.length + k) :
    gap_bases longer (candidate s k x) = (longer.drop x).take k := by
  have hx2 : x ≤ longer.length := by omega
  have hlt : (longer.take x).length = (s.take x).length := by
    rw [List.length_take, List.length_take]
    omega
  have hk : k ≤ (longer.drop x).length := by
    rw [List.length_drop]
    omega
  conv_lhs => rw [← List.take_append_drop x longer]
  rw [candidate, List.append_assoc, gap_bases_append_somes _ _ _ _ hlt,
    gap_bases_replicate k _ _ hk, gap_bases_map_some, List.append_nil]

/-- Length of the selected deletion or insertion bases. -/
theorem length_gap_bases_candidate (longer s : List Char) (k x : Nat)
    (hx : x ≤ s.length) (hlen : longer.length = s.length + k) :
    ((longer.drop x).take k).length = k := by
  rw [List.length_take, List.length_drop]
  omega

/-- Concrete genome used by the C1 counterexample and witness: a
non-coding forward gene on positions 10 to 20. -/
def genomeC1 : Genome :=
  ⟨[], fun _ => ⟨10, 20, false, false⟩, fun _ _ => [], fun _ => 'X'⟩

/-- C1 counterexample: for the deletion call at position 19 with ref
caaa and alt taa the winning split is 3, the anchor 12 falls past the
gene length 10, and `del_calls` returns the empty list even though the
residual SNP scan of the winning candidate produces the token c9t; the
residual SNP tokens are therefore not returned. -/
theorem c1_boundary_counterexample :
    indel_search (fun alt1 => snp_number ((['c', 'a', 'a', 'a'] : List Char).map some) alt1)
      ['t', 'a', 'a'] 1 = (some (candidate ['t', 'a', 'a'] 1 3), 1, 3) ∧
    del_calls genomeC1 "g" 19 ['c', 'a', 'a', 'a'] ['t', 'a', 'a'] false = some [] ∧
    snps genomeC1 "g" 19 ((['c', 'a', 'a', 'a'] : List Char).map some)
      (candidate ['t', 'a', 'a'] 1 3) = [Token.nucSNP "g" 'c' 9 't'] := by
  decide

/-- C1 (amended). When the computed indel anchor falls past the gene's
far boundary, `ins_calls` (forward or reverse-complement) drops the
indel token and returns exactly the residual SNP tokens, while
`del_calls` (forward or reverse-complement) drops the residual SNP
tokens as well and returns the empty list. -/
theorem c1_boundary_behavior (G : Genome) (gene : String) (pos : Int) (ref alt : List Char)
    (curd cur2 : List (Option Char)) (md m2 xd x2 : Nat)
    (hdel : indel_search (fun alt1 => snp_number (ref.map some) alt1) alt
      (ref.length - alt.length) = (some curd, md, xd))
    (hins : indel_search (fun ref1 => snp_number ref1 (alt.map some)) ref
      (alt.length - ref.length) = (some cur2, m2, x2)) :
    (pos - (G.genes gene).start + (xd : Int) > (G.genes gene).end_ - (G.genes gene).start →
      del_calls G gene pos ref alt false = some []) ∧
    ((G.genes gene).end_ - (pos + (xd : Int)) - 1 > (G.genes gene).end_ - (G.genes gene).start →
      del_calls G gene pos ref alt true = some []) ∧
    (pos - (G.genes gene).start + (x2 : Int) > (G.genes gene).end_ - (G.genes gene).start →
      ins_calls G gene pos ref alt false =
        some (snps G gene pos (ref.map some) ((non_gap_bases alt cur2).map some))) ∧
    ((G.genes gene).end_ - (pos + (x2 : Int)) - 1 > (G.genes gene).end_ - (G.genes gene).start →
      ins_calls G gene pos ref alt true =
        some (rev_comp_snp G gene pos (ref.map some) ((non_gap_bases alt cur2).map some))) := by
  refine ⟨?_, ?_, ?_, ?_⟩
  · intro hb
    rw [del_calls_fwd_eq G gene pos ref alt curd md xd hdel, if_pos hb]
  · intro hb
    rw [del_calls_rev_eq G gene pos ref alt curd md xd hdel, if_pos hb]
  · intro hb
    rw [ins_calls_fwd_eq G gene pos ref alt cur2 m2 x2 hins, if_pos hb]
  · intro hb
    rw [ins_calls_rev_eq G gene pos ref alt cur2 m2 x2 hins, if_pos hb]

/-- Witness for the amended C1 at the counterexample input: the deletion
result is empty while the mirrored insertion call keeps its residual
SNPs. -/
theorem c1_boundary_behavior_witness :
    del_calls genomeC1 "g" 19 ['c', 'a', 'a', 'a'] ['t', 'a', 'a'] false = some [] ∧
    ins_calls genomeC1 "g" 19 ['c', 'a', 'a', 'a'] ['t', 'a', 'a'] false =
      some (snps genomeC1 "g" 19 ((['c', 'a', 'a', 'a'] : List Char).map some)
        ((non_gap_bases ['t', 'a', 'a']
          ((['c', 'a', 'a', 'a'] : List Char).map some)).map some)) := by
  have h := c1_boundary_behavior genomeC1 "g" 19 ['c', 'a', 'a', 'a'] ['t', 'a', 'a']
    (candidate ['t', 'a', 'a'] 1 3) ((['c', 'a', 'a', 'a'] : List Char).map some) 1 1 3 4
    (by decide) (by decide)
  exact ⟨h.1 (by decide), h.2.2.1 (by decide)⟩

/-- Concrete genome used by the C3 counterexample and witness: a
non-coding reverse-complement gene on positions 10 to 20. -/
def genomeC3 : Genome :=
  ⟨[], fun _ => ⟨10, 20, false, true⟩, fun _ _ => [], fun _ => 'X'⟩

/-- C3 counterexample: the reverse-complement insertion at position 19
of ref a, alt aa has computed anchor 0, yet the emitted token carries
relative position -2, two steps away from zero rather than the single
step -1 the claim allows. -/
theorem c3_zero_skip_counterexample :
    (genomeC3.genes "g").end_ - (19 + (1 : Int)) = 0 ∧
    ins_calls genomeC3 "g" 19 ['a'] ['a', 'a'] true = some [Token.ins "g" (-2) ['t']] ∧
    ((-2 : Int) ≠ 0 - 1) := by
  decide

/-- C3 (amended). For a computed anchor `p` at or below zero, forward
deletions and insertions emit relative position `p - 1` (one step);
reverse-complement deletions emit `p - 1` further shifted left by the
deletion length minus one for right-hand-end counting; and
reverse-complement insertions apply the promoter adjustment twice,
emitting `p - 2`. -/
theorem c3_zero_skip_behavior (G : Genome) (gene : String) (pos : Int) (ref alt : List Char)
    (curd cur2 : List (Option Char)) (md m2 xd x2 : Nat)
    (hdel : indel_search (fun alt1 => snp_number (ref.map some) alt1) alt
      (ref.length - alt.length) = (some curd, md, xd))
    (hins : indel_search (fun ref1 => snp_number ref1 (alt.map some)) ref
      (alt.length - ref.length) = (some cur2, m2, x2)) :
    (pos - (G.genes gene).start + (xd : Int) ≤ 0 →
      ¬ (pos - (G.genes gene).start + (xd : Int) > (G.genes gene).end_ - (G.genes gene).start) →
      del_calls G gene pos ref alt false =
        some (snps G gene pos (ref.map some) curd ++
          [Token.del gene (pos - (G.genes gene).start + (xd : Int) - 1) (gap_bases ref curd)])) ∧
    ((G.genes gene).end_ - (pos + (xd : Int)) ≤ 0 →
      ¬ ((G.genes gene).end_ - (pos + (xd : Int)) - 1 >
          (G.genes gene).end_ - (G.genes gene).start) →
      del_calls G gene pos ref alt true =
        some (rev_comp_snp G gene pos (ref.map some) curd ++
          [Token.del gene
            ((G.genes gene).end_ - (pos + (xd : Int)) - 1 -
              (((gap_bases ref curd).map complement).length : Int) + 1)
            ((gap_bases ref curd).map complement).reverse])) ∧
    (pos - (G.genes gene).start + (x2 : Int) ≤ 0 →
      ¬ (pos - (G.genes gene).start + (x2 : Int) > (G.genes gene).end_ - (G.genes gene).start) →
      ins_calls G gene pos ref alt false =
        some (snps G gene pos (ref.map some) ((non_gap_bases alt cur2).map some) ++
          [Token.ins gene (pos - (G.genes gene).start + (x2 : Int) - 1) (gap_bases alt cur2)])) ∧
    ((G.genes gene).end_ - (pos + (x2 : Int)) ≤ 0 →
      ¬ ((G.genes gene).end_ - (pos + (x2 : Int)) - 1 >
          (G.genes gene).end_ - (G.genes gene).start) →
      ins_calls G gene pos ref alt true =
        some (rev_comp_snp G gene pos (ref.map some) ((non_gap_bases alt cur2).map some) ++
          [Token.ins gene ((G.genes gene).end_ - (pos + (x2 : Int)) - 2)
            ((gap_bases alt cur2).map complement).reverse])) := by
  refine ⟨?_, ?_, ?_, ?_⟩
  · intro hp hb
    rw [del_calls_fwd_eq G gene pos ref alt curd md xd hdel, if_neg hb, if_pos hp]
  · intro hp hb
    rw [del_calls_rev_eq G gene pos ref alt curd md xd hdel, if_neg hb, if_pos hp]
  · intro hp hb
    rw [ins_calls_fwd_eq G gene pos ref alt cur2 m2 x2 hins, if_neg hb, if_pos hp]
  · intro hp hb
    rw [ins_calls_rev_eq G gene pos ref alt cur2 m2 x2 hins, if_neg hb, if_pos hp]
    have hp1 : (G.genes gene).end_ - (pos + (x2 : Int)) - 1 ≤ 0 := by omega
    rw [if_pos hp1]
    have harith : (G.genes gene).end_ - (pos + (x2 : Int)) - 1 - 1 =
        (G.genes gene).end_ - (pos + (x2 : Int)) - 2 := by ring
    rw [harith]

/-- Witness for the amended C3 at the counterexample input: the
reverse-complement insertion with anchor 0 emits position `0 - 2`. -/
theorem c3_zero_skip_behavior_witness :
    ins_calls genomeC3 "g" 19 ['a'] ['a', 'a'] true =
      some (rev_comp_snp genomeC3 "g" 19 ((['a'] : List Char).map some)
          ((non_gap_bases ['a', 'a'] [some 'a', none]).map some) ++
        [Token.ins "g" ((genomeC3.genes "g").end_ - (19 + ((1 : Nat) : Int)) - 2)
          ((gap_bases ['a', 'a'] [some 'a', none]).map complement).reverse]) := by
  exact (c3_zero_skip_behavior genomeC3 "g" 19 ['a'] ['a', 'a']
    [some 'a', some 'a'] [some 'a', none] 0 0 2 1 (by decide) (by decide)).2.2.2
    (by decide) (by decide)

/-- A known search result coincides with the specified one: the
candidate carried in the state is the candidate at the returned split,
which lies within range. -/
theorem indel_search_det (count : List (Option Char) → Nat) (s : List Char) (k : Nat)
    (cur : List (Option Char)) (m x : Nat)
    (h : indel_search count s k = (some cur, m, x))
    (hb : count (candidate s k 0) ≤ 999) :
    cur = candidate s k x ∧ x ≤ s.length := by
  obtain ⟨x', h1, h2, _, _⟩ := indel_search_spec count s k hb
  rw [h] at h1
  simp only [Prod.mk.injEq, Option.some.injEq] at h1
  obtain ⟨hcur, _, hx⟩ := h1
  rw [hx]
  exact ⟨hcur, hx ▸ h2⟩

/-- Bound justifying that the deletion-mode split search always updates
on windows of length at most 999. -/
theorem del_count_bound (ref s : List Char) (k : Nat) (h : s.length ≤ 999) :
    snp_number (ref.map some) (candidate s k 0) ≤ 999 :=
  le_trans (le_trans (snp_number_le_somes _ _) (le_of_eq (countP_somes_candidate s k 0))) h

/-- Bound justifying that the insertion-mode split search always updates
on windows of length at most 999. -/
theorem ins_count_bound (alt s : List Char) (k : Nat) (h : s.length ≤ 999) :
    snp_number (candidate s k 0) (alt.map some) ≤ 999 := by
  rw [snp_number_symm]
  exact del_count_bound alt s k h

/-- C10. Every emitted indel token carries exactly
`len(longer) - len(shorter)` bases, namely the bases of the longer
window at the gap offsets of the winning split (complemented and
reversed for reverse-complement genes). -/
theorem c10_indel_bases (G : Genome) (gene : String) (pos : Int) (ref alt : List Char)
    (curd cur2 : List (Option Char)) (md m2 xd x2 : Nat)
    (hdel : indel_search (fun alt1 => snp_number (ref.map some) alt1) alt
      (ref.length - alt.length) = (some curd, md, xd))
    (hins : indel_search (fun ref1 => snp_number ref1 (alt.map some)) ref
      (alt.length - ref.length) = (some cur2, m2, x2)) :
    (alt.length ≤ 999 → alt.length ≤ ref.length →
      ¬ (pos - (G.genes gene).start + (xd : Int) > (G.genes gene).end_ - (G.genes gene).start) →
      ∃ p, del_calls G gene pos ref alt false =
          some (snps G gene pos (ref.map some) curd ++
            [Token.del gene p ((ref.drop xd).take (ref.length - alt.length))]) ∧
        ((ref.drop xd).take (ref.length - alt.length)).length = ref.length - alt.length) ∧
    (alt.length ≤ 999 → alt.length ≤ ref.length →
      ¬ ((G.genes gene).end_ - (pos + (xd : Int)) - 1 >
          (G.genes gene).end_ - (G.genes gene).start) →
      ∃ p, del_calls G gene pos ref alt true =
          some (rev_comp_snp G gene pos (ref.map some) curd ++
            [Token.del gene p
              (((ref.drop xd).take (ref.length - alt.length)).map complement).reverse]) ∧
        ((((ref.drop xd).take (ref.length - alt.length)).map complement).reverse).length =
          ref.length - alt.length) ∧
    (ref.length ≤ 999 → ref.length ≤ alt.length →
      ¬ (pos - (G.genes gene).start + (x2 : Int) > (G.genes gene).end_ - (G.genes gene).start) →
      ∃ p, ins_calls G gene pos ref alt false =
          some (snps G gene pos (ref.map some) ((non_gap_bases alt cur2).map some) ++
            [Token.ins gene p ((alt.drop x2).take (alt.length - ref.length))]) ∧
        ((alt.drop x2).take (alt.length - ref.length)).length = alt.length - ref.length) ∧
    (ref.length ≤ 999 → ref.length ≤ alt.length →
      ¬ ((G.genes gene).end_ - (pos + (x2 : Int)) - 1 >
          (G.genes gene).end_ - (G.genes gene).start) →
      ∃ p, ins_calls G gene pos ref alt true =
          some (rev_comp_snp G gene pos (ref.map some) ((non_gap_bases alt cur2).map some) ++
            [Token.ins gene p
              (((alt.drop x2).take (alt.length - ref.length)).map complement).reverse]) ∧
        ((((alt.drop x2).take (alt.length - ref.length)).map complement).reverse).length =
          alt.length - ref.length) := by
  refine ⟨?_, ?_, ?_, ?_⟩
  · intro h999 hlen hb
    obtain ⟨hcur, hxle⟩ := indel_search_det _ alt _ curd md xd hdel
      (del_count_bound ref alt _ h999)
    have hlen2 : ref.length = alt.length + (ref.length - alt.length) := by omega
    have hgap : gap_bases ref curd = (ref.drop xd).take (ref.length - alt.length) := by
      rw [hcur]
      exact gap_bases_candidate ref alt _ xd hxle hlen2
    refine ⟨if pos - (G.genes gene).start + (xd : Int) ≤ 0 then
        pos - (G.genes gene).start + (xd : Int) - 1
      else pos - (G.genes gene).start + (xd : Int), ?_,
      length_gap_bases_candidate ref alt _ xd hxle hlen2⟩
    rw [del_calls_fwd_eq G gene pos ref alt curd md xd hdel, if_neg hb, hgap]
  · intro h999 hlen hb
    obtain ⟨hcur, hxle⟩ := indel_search_det _ alt _ curd md xd hdel
      (del_count_bound ref alt _ h999)
    have hlen2 : ref.length = alt.length + (ref.length - alt.length) := by omega
    have hgap : gap_bases ref curd = (ref.drop xd).take (ref.length - alt.length) := by
      rw [hcur]
      exact gap_bases_candidate ref alt _ xd hxle hlen2
    refine ⟨(if (G.genes gene).end_ - (pos + (xd : Int)) ≤ 0 then
        (G.genes gene).end_ - (pos + (xd : Int)) - 1
      else (G.genes gene).end_ - (pos + (xd : Int))) -
        (((((ref.drop xd).take (ref.length - alt.length)).map complement).length : Int)) + 1,
      ?_, ?_⟩
    · rw [del_calls_rev_eq G gene pos ref alt curd md xd hdel, if_neg hb, hgap]
    · rw [List.length_reverse, List.length_map]
      exact length_gap_bases_candidate ref alt _ xd hxle hlen2
  · intro h999 hlen hb
    obtain ⟨hcur, hxle⟩ := indel_search_det _ ref _ cur2 m2 x2 hins
      (ins_count_bound alt ref _ h999)
    have hlen2 : alt.length = ref.length + (alt.length - ref.length) := by omega
    have hgap : gap_bases alt cur2 = (alt.drop x2).take (alt.length - ref.length) := by
      rw [hcur]
      exact gap_bases_candidate alt ref _ x2 hxle hlen2
    refine ⟨if pos - (G.genes gene).start + (x2 : Int) ≤ 0 then
        pos - (G.genes gene).start + (x2 : Int) - 1
      else pos - (G.genes gene).start + (x2 : Int), ?_,
      length_gap_bases_candidate alt ref _ x2 hxle hlen2⟩
    rw [ins_calls_fwd_eq G gene pos ref alt cur2 m2 x2 hins, if_neg hb, hgap]
  · intro h999 hlen hb
    obtain ⟨hcur, hxle⟩ := indel_search_det _ ref _ cur2 m2 x2 hins
      (ins_count_bound alt ref _ h999)
    have hlen2 : alt.length = ref.length + (alt.length - ref.length) := by omega
    have hgap : gap_bases alt cur2 = (alt.drop x2).take (alt.length - ref.length) := by
      rw [hcur]
      exact gap_bases_candidate alt ref _ x2 hxle hlen2
    refine ⟨if (if (G.genes gene).end_ - (pos + (x2 : Int)) ≤ 0 then
          (G.genes gene).end_ - (pos + (x2 : Int)) - 1
        else (G.genes gene).end_ - (pos + (x2 : Int)) + 1) ≤ 0 then
        (if (G.genes gene).end_ - (pos + (x2 : Int)) ≤ 0 then
           (G.genes gene).end_ - (pos + (x2 : Int)) - 1
         else (G.genes gene).end_ - (pos + (x2 : Int)) + 1) - 1
      else
        (if (G.genes gene).end_ - (pos + (x2 : Int)) ≤ 0 then
           (G.genes gene).end_ - (pos + (x2 : Int)) - 1
         else (G.genes gene).end_ - (pos + (x2 : Int)) + 1), ?_, ?_⟩
    · rw [ins_calls_rev_eq G gene pos ref alt cur2 m2 x2 hins, if_neg hb, hgap]
    · rw [List.length_reverse, List.length_map]
      exact length_gap_bases_candidate alt ref _ x2 hxle hlen2

/-- Concrete genome used by the C10 witness: a non-coding forward gene
on positions 10 to 20. -/
def genomeC10 : Genome :=
  ⟨[], fun _ => ⟨10, 20, false, false⟩, fun _ _ => [], fun _ => 'X'⟩

/-- Witness for C10 on the repeated-base deletion aaa to aa inside the
gene: the winning split is 2 and the token carries the single base at
offset 2 of the ref window. -/
theorem c10_indel_bases_witness :
    ∃ p, del_calls genomeC10 "g" 12 ['a', 'a', 'a'] ['a', 'a'] false =
        some (snps genomeC10 "g" 12 ((['a', 'a', 'a'] : List Char).map some)
          (candidate ['a', 'a'] 1 2) ++
          [Token.del "g" p (((['a', 'a', 'a'] : List Char).drop 2).take 1)]) ∧
      (((['a', 'a', 'a'] : List Char).drop 2).take 1).length = 1 := by
  exact (c10_indel_bases genomeC10 "g" 12 ['a', 'a', 'a'] ['a', 'a']
    (candidate ['a', 'a'] 1 2) ((['a', 'a', 'a'] : List Char).map some) 0 0 2 3
    (by decide) (by decide)).1 (by decide) (by decide) (by decide)

/-- Concrete genome used for C4: a non-coding forward gene on positions
100 to 1000. -/
def genomeC4 : Genome :=
  ⟨[], fun _ => ⟨100, 1000, false, false⟩, fun _ _ => [], fun _ => 'X'⟩

/-- C4. Evaluation at the failing input: a mismatching base exactly at
the start of a non-coding forward gene is emitted with rendered relative
position 0, although the notation grammar forbids a zero position. -/
theorem c4_zero_position_emitted :
    snps genomeC4 "g" 100 [some 'a'] [some 'g'] = [Token.nucSNP "g" 'a' 0 'g'] := by
  decide

/-- Writing through one cell leaves every other cell unchanged. -/
theorem readArr_writeArr_ne (st : Store) (r r2 : Nat) (i : Nat) (c : Char)
    (h : r2 ≠ r) : readArr (writeArr st r i c) r2 = readArr st r2 := by
  unfold readArr writeArr List.getD
  rw [List.get?_set_ne _ _ (fun he => h he.symm)]

/-- Allocation by `copyArr` does not disturb reads of existing cells. -/
theorem readArr_copyArr (st : Store) (r r2 : Nat) (h : r2 < st.length) :
    readArr (copyArr st r).1 r2 = readArr st r2 := by
  unfold readArr copyArr List.getD
  rw [List.get?_append h]

/-- The store-passing forward scan writes only through the working-copy
cell: every other cell reads the same after the loop. -/
theorem snpsLoopSt_frame (G : GenomeSt) (gene : String) (pos : Int) (seqRef : Nat) :
    ∀ (pairs : List (Option Char × Option Char)) (index : Nat) (acc : List Token)
      (st : Store) (r2 : Nat), r2 ≠ seqRef →
      readArr (snpsLoopSt G gene pos seqRef pairs index acc st).2 r2 = readArr st r2
  | [], _, _, _, _, _ => rfl
  | (oref, oalt) :: rest, index, acc, st, r2, h => by
    rcases oref with _ | r <;> rcases oalt with _ | a
    · exact snpsLoopSt_frame G gene pos seqRef rest (index + 1) acc st r2 h
    · exact snpsLoopSt_frame G gene pos seqRef rest (index + 1) acc st r2 h
    · exact snpsLoopSt_frame G gene pos seqRef rest (index + 1) acc st r2 h
    · show readArr (snpsLoopSt G gene pos seqRef ((some r, some a) :: rest) index acc st).2 r2 =
        readArr st r2
      rw [snpsLoopSt]
      by_cases hne : r ≠ a
      · rw [if_pos hne]
        by_cases h1 : (G.genes gene).end_ - (pos + index) ≤ 0
        · rw [if_pos h1]
        · rw [if_neg h1]
          by_cases h2 : pos + index - (G.genes gene).start < 0
          · rw [if_pos h2]
            exact snpsLoopSt_frame G gene pos seqRef rest (index + 1) _ st r2 h
          · rw [if_neg h2]
            by_cases h3 : (G.genes gene).codes_protein = false
            · rw [if_pos h3]
              exact snpsLoopSt_frame G gene pos seqRef rest (index + 1) _ st r2 h
            · rw [if_neg h3]
              rw [snpsLoopSt_frame G gene pos seqRef rest (index + 1) acc _ r2 h]
              exact readArr_writeArr_ne st seqRef r2 _ a h
      · rw [if_neg hne]
        exact snpsLoopSt_frame G gene pos seqRef rest (index + 1) acc st r2 h

/-- The store-passing reverse-complement scan writes only through the
working-copy cell. -/
theorem rev_comp_snpLoopSt_frame (G : GenomeSt) (gene : String) (pos : Int) (seqRef : Nat) :
    ∀ (pairs : List (Option Char × Option Char)) (index : Nat) (acc : List Token)
      (st : Store) (r2 : Nat), r2 ≠ seqRef →
      readArr (rev_comp_snpLoopSt G gene pos seqRef pairs index acc st).2 r2 = readArr st r2
  | [], _, _, _, _, _ => rfl
  | (oref, oalt) :: rest, index, acc, st, r2, h => by
    rcases oref with _ | r <;> rcases oalt with _ | a
    · exact rev_comp_snpLoopSt_frame G gene pos seqRef rest (index + 1) acc st r2 h
    · exact rev_comp_snpLoopSt_frame G gene pos seqRef rest (index + 1) acc st r2 h
    · exact rev_comp_snpLoopSt_frame G gene pos seqRef rest (index + 1) acc st r2 h
    · show readArr
          (rev_comp_snpLoopSt G gene pos seqRef ((some r, some a) :: rest) index acc st).2 r2 =
        readArr st r2
      rw [rev_comp_snpLoopSt]
      by_cases hne : r ≠ a
      · rw [if_pos hne]
        by_cases h1 : pos + index - (G.genes gene).start < 0
        · rw [if_pos h1]
        · rw [if_neg h1]
          by_cases h2 : (G.genes gene).end_ - (pos + index) ≤ 0 ∨
              (G.genes gene).codes_protein = false
          · rw [if_pos h2]
            exact rev_comp_snpLoopSt_frame G gene pos seqRef rest (index + 1) _ st r2 h
          · rw [if_neg h2]
            rw [rev_comp_snpLoopSt_frame G gene pos seqRef rest (index + 1) acc _ r2 h]
            exact readArr_writeArr_ne st seqRef r2 _ a h
      · rw [if_neg hne]
        exact rev_comp_snpLoopSt_frame G gene pos seqRef rest (index + 1) acc st r2 h

/-- C9. Neither store-passing encoder mutates the shared reference cell:
after `snpsSt` or `rev_comp_snpSt` the nucleotide-sequence cell of the
store reads exactly as before the call, all writes having gone to the
freshly copied working cell. -/
theorem c9_reference_unchanged (G : GenomeSt) (gene : String) (pos : Int)
    (ref alt : List (Option Char)) (st : Store)
    (h : G.nucleotide_sequence < st.length) :
    readArr (snpsSt G gene pos ref alt st).2 G.nucleotide_sequence =
      readArr st G.nucleotide_sequence ∧
    readArr (rev_comp_snpSt G gene pos ref alt st).2 G.nucleotide_sequence =
      readArr st G.nucleotide_sequence := by
  have hne : G.nucleotide_sequence ≠ (copyArr st G.nucleotide_sequence).2 :=
    Nat.ne_of_lt h
  have hcopy : readArr (copyArr st G.nucleotide_sequence).1 G.nucleotide_sequence =
      readArr st G.nucleotide_sequence :=
    readArr_copyArr st _ _ h
  constructor
  · have hsnd : (snpsSt G gene pos ref alt st).2 =
        (snpsLoopSt G gene pos (copyArr st G.nucleotide_sequence).2 (ref.zip alt) 0 []
          (copyArr st G.nucleotide_sequence).1).2 := rfl
    rw [hsnd]
    exact (snpsLoopSt_frame G gene pos (copyArr st G.nucleotide_sequence).2 (ref.zip alt) 0 []
      (copyArr st G.nucleotide_sequence).1 G.nucleotide_sequence hne).trans hcopy
  · have hsnd : (rev_comp_snpSt G gene pos ref alt st).2 =
        (rev_comp_snpLoopSt G gene pos (copyArr st G.nucleotide_sequence).2 (ref.zip alt) 0 []
          (copyArr st G.nucleotide_sequence).1).2 := rfl
    rw [hsnd]
    exact (rev_comp_snpLoopSt_frame G gene pos (copyArr st G.nucleotide_sequence).2
      (ref.zip alt) 0 [] (copyArr st G.nucleotide_sequence).1 G.nucleotide_sequence hne).trans
      hcopy

/-- Concrete store-passing genome used by the C9 witness: the shared
sequence lives in cell 0 of the store and the gene is protein-coding so
the scan performs a write. -/
def genomeC9 : GenomeSt :=
  ⟨0, fun _ => ⟨1, 10, true, false⟩, fun _ _ => [], fun _ => 'K'⟩

/-- Witness for C9: a coding-region mismatch at position 2 writes into
the working copy, and the shared cell still reads its original value
after both encoders. -/
theorem c9_reference_unchanged_witness :
    genomeC9.nucleotide_sequence < ([['a', 'c']] : Store).length ∧
    readArr (snpsSt genomeC9 "g" 2 [some 'a'] [some 'c'] [['a', 'c']]).2
      genomeC9.nucleotide_sequence = readArr [['a', 'c']] genomeC9.nucleotide_sequence ∧
    readArr (rev_comp_snpSt genomeC9 "g" 2 [some 'a'] [some 'c'] [['a', 'c']]).2
      genomeC9.nucleotide_sequence = readArr [['a', 'c']] genomeC9.nucleotide_sequence := by
  have h := c9_reference_unchanged genomeC9 "g" 2 [some 'a'] [some 'c'] [['a', 'c']]
    (by decide)
  exact ⟨by decide, h.1, h.2⟩
